import Mathlib

/-!
# Verification of `timevec` (`src/lib.rs`)

Shallow embedding of the `TimeVec` time-windowed buffer and its builder.

Modelling decisions:
* `core::time::Duration` is modelled as a `Nat` counting total nanoseconds.
  Rust's `Duration.saturating_sub` is then exactly `Nat` subtraction
  (which truncates at zero), and `Duration.checked_sub` returns `none`
  exactly when the subtraction would underflow.
* `VecDeque<Item<T>>` is modelled as a `List (Item T)` with the front of
  the deque at the head of the list and the back at the last position.
* Mutating methods become functions from the structure to a pair of
  (returned value, updated structure).
* `VecDeque::partition_point(pred)` performs a binary search that, on a
  buffer partitioned by `pred` (all elements satisfying `pred` first),
  returns the index of the first element not satisfying `pred`; on a
  partitioned buffer that index is the length of the longest prefix of
  elements satisfying `pred`, which is how it is modelled here.  The
  time-ordering invariant proved below guarantees the buffer is always
  partitioned by the eviction predicate when `push` calls it.
* `VecDeque::drain(..)` removes the drained range from the deque in bulk
  and returns an iterator over the removed items, front first; if that
  iterator is dropped before being fully consumed, the remaining removed
  items are dropped with it and do not return to the deque.  `drain` is
  therefore modelled as the removed list (in yield order) with the buffer
  left empty, and `drain_stop` models stopping the cursor after `k`
  items: the caller has observed the first `k` items and the buffer is
  empty regardless of `k`.
-/

namespace Timevec

/-- Rust `core::time::Duration`, as a total number of nanoseconds. -/
abbrev Duration := Nat

/-- Rust `Duration::saturating_sub`: truncated subtraction. -/
def Duration.saturating_sub (a b : Duration) : Duration := a - b

/-- Rust `Duration::checked_sub`: `none` on underflow. -/
def Duration.checked_sub (a b : Duration) : Option Duration :=
  if b ≤ a then some (a - b) else none

/-- Rust `Duration::ZERO`. -/
def Duration.zero : Duration := 0

/-- Rust `Duration::from_secs`. -/
def Duration.from_secs (v : Nat) : Duration := v * 1000000000

/-- Rust `Duration::from_millis`. -/
def Duration.from_millis (v : Nat) : Duration := v * 1000000

/-- Rust `Duration::from_micros`. -/
def Duration.from_micros (v : Nat) : Duration := v * 1000

/-- Rust `Duration::from_nanos`. -/
def Duration.from_nanos (v : Nat) : Duration := v

/-- Rust `type Item<T> = (Duration, T);` -/
abbrev Item (T : Type) := Duration × T

/-- Rust `pub struct TimeVec<T> { pub limit: Duration, buffer: VecDeque<Item<T>> }` -/
structure TimeVec (T : Type) where
  limit : Duration
  buffer : List (Item T)
deriving Repr, DecidableEq

/-- Rust `TimeVec::new(limit, capacity)`; the capacity is an allocation hint
with no observable effect on the contents, so the buffer starts empty. -/
def TimeVec.new (T : Type) (limit : Duration) (_capacity : Nat) : TimeVec T :=
  { limit := limit, buffer := [] }

/-- Rust `TimeVec::checked_duration`:
`self.buffer.front().map(|oldest| self.buffer.back().unwrap().0 - oldest.0)`.
The `unwrap` of `back()` is reached only when `front()` returned `Some`,
in which case the buffer is non-empty and `back()` is also `Some`; the
match below is that same computation. -/
def TimeVec.checked_duration {T : Type} (tv : TimeVec T) : Option Duration :=
  match tv.buffer.head?, tv.buffer.getLast? with
  | some oldest, some newest => some (newest.1 - oldest.1)
  | _, _ => none

/-- Rust `TimeVec::duration`: `self.checked_duration().unwrap_or(Duration::ZERO)`. -/
def TimeVec.duration {T : Type} (tv : TimeVec T) : Duration :=
  tv.checked_duration.getD Duration.zero

/-- Rust `TimeVec::check_timestamp`:
`self.buffer.back().map(|i| value > i.0).unwrap_or(true)`. -/
def TimeVec.check_timestamp {T : Type} (tv : TimeVec T) (value : Duration) : Bool :=
  (tv.buffer.getLast?.map (fun i => decide (value > i.1))).getD true

/-- Rust `TimeVec::push`: if the timestamp check passes, append the item at the
back, locate the partition point of the eviction predicate
`i.0 < timestamp.saturating_sub(limit)`, and drain the items before it
(the returned drain is the removed list, front items first); otherwise
return `None` and leave the structure unchanged. -/
def TimeVec.push {T : Type} (tv : TimeVec T) (timestamp : Duration) (item : T) :
    Option (List (Item T)) × TimeVec T :=
  if tv.check_timestamp timestamp then
    let buffer1 := tv.buffer ++ [(timestamp, item)]
    let partition_timestamp := Duration.saturating_sub timestamp tv.limit
    let partition_point := (buffer1.takeWhile (fun i => decide (i.1 < partition_timestamp))).length
    (some (buffer1.take partition_point), { tv with buffer := buffer1.drop partition_point })
  else
    (none, tv)

/-- Rust `TimeVec::pop_front`: `self.buffer.pop_front()`. -/
def TimeVec.pop_front {T : Type} (tv : TimeVec T) : Option (Item T) × TimeVec T :=
  (tv.buffer.head?, { tv with buffer := tv.buffer.tail })

/-- Rust `TimeVec::pop_back`: `self.buffer.pop_back()`. -/
def TimeVec.pop_back {T : Type} (tv : TimeVec T) : Option (Item T) × TimeVec T :=
  (tv.buffer.getLast?, { tv with buffer := tv.buffer.dropLast })

/-- Rust `TimeVec::duration_from_back`:
`self.buffer.back().map(|item| duration.checked_sub(item.0)).flatten()`
(`map` followed by `flatten` is `bind`). -/
def TimeVec.duration_from_back {T : Type} (tv : TimeVec T) (duration : Duration) :
    Option Duration :=
  tv.buffer.getLast?.bind (fun item => Duration.checked_sub duration item.1)

/-- Rust `TimeVec::clear`: `self.buffer.clear()`. -/
def TimeVec.clear {T : Type} (tv : TimeVec T) : TimeVec T :=
  { tv with buffer := [] }

/-- Rust `TimeVec::len`: `self.buffer.len()`. -/
def TimeVec.len {T : Type} (tv : TimeVec T) : Nat :=
  tv.buffer.length

/-- Rust `TimeVec::iter`: the items, front (oldest) first. -/
def TimeVec.iter {T : Type} (tv : TimeVec T) : List (Item T) :=
  tv.buffer

/-- Rust `TimeVec::iter_data`: the values, front (oldest) first. -/
def TimeVec.iter_data {T : Type} (tv : TimeVec T) : List T :=
  tv.buffer.map Prod.snd

/-- Rust `TimeVec::iter_time`: the timestamps, front (oldest) first. -/
def TimeVec.iter_time {T : Type} (tv : TimeVec T) : List Duration :=
  tv.buffer.map Prod.fst

/-- Rust `TimeVec::is_empty`: `self.buffer.is_empty()`. -/
def TimeVec.is_empty {T : Type} (tv : TimeVec T) : Bool :=
  tv.buffer.isEmpty

/-- Rust `TimeVec::drain`: `self.buffer.drain(..)`, eagerly: the full contents
are yielded (oldest first) and the buffer is left empty. -/
def TimeVec.drain {T : Type} (tv : TimeVec T) : List (Item T) × TimeVec T :=
  (tv.buffer, { tv with buffer := [] })

/-- Stopping the cursor returned by `drain(..)` after consuming only `k`
items: `VecDeque::drain` removes the whole range from the deque in bulk,
so the caller has observed the first `k` yielded items, and when the
cursor is dropped the unconsumed remainder is dropped with it — the
buffer is left empty no matter how far consumption got. -/
def TimeVec.drain_stop {T : Type} (tv : TimeVec T) (k : Nat) :
    List (Item T) × TimeVec T :=
  (tv.buffer.take k, { tv with buffer := [] })

/-- Rust `pub struct TimeVecBuilder<T> { pub limit: Option<Duration>, pub capacity: Option<usize> }`
(the `PhantomData` marker carries no data). -/
structure TimeVecBuilder (T : Type) where
  limit : Option Duration
  capacity : Option Nat
deriving Repr, DecidableEq

/-- Rust `TimeVecBuilder::default()`. -/
def TimeVecBuilder.default (T : Type) : TimeVecBuilder T :=
  { limit := none, capacity := none }

/-- Rust `TimeVec::builder()`. -/
def TimeVec.builder (T : Type) : TimeVecBuilder T :=
  TimeVecBuilder.default T

/-- Rust `TimeVecBuilder::with_limit`. -/
def TimeVecBuilder.with_limit {T : Type} (b : TimeVecBuilder T) (value : Duration) :
    TimeVecBuilder T :=
  { b with limit := some value }

/-- Rust `TimeVecBuilder::with_limit_secs`. -/
def TimeVecBuilder.with_limit_secs {T : Type} (b : TimeVecBuilder T) (value : Nat) :
    TimeVecBuilder T :=
  b.with_limit (Duration.from_secs value)

/-- Rust `TimeVecBuilder::with_limit_micros`. -/
def TimeVecBuilder.with_limit_micros {T : Type} (b : TimeVecBuilder T) (value : Nat) :
    TimeVecBuilder T :=
  b.with_limit (Duration.from_micros value)

/-- Rust `TimeVecBuilder::with_limit_millis`. -/
def TimeVecBuilder.with_limit_millis {T : Type} (b : TimeVecBuilder T) (value : Nat) :
    TimeVecBuilder T :=
  b.with_limit (Duration.from_millis value)

/-- Rust `TimeVecBuilder::with_limit_nanos`. -/
def TimeVecBuilder.with_limit_nanos {T : Type} (b : TimeVecBuilder T) (value : Nat) :
    TimeVecBuilder T :=
  b.with_limit (Duration.from_nanos value)

/-- Rust `TimeVecBuilder::with_capacity`. -/
def TimeVecBuilder.with_capacity {T : Type} (b : TimeVecBuilder T) (value : Nat) :
    TimeVecBuilder T :=
  { b with capacity := some value }

/-- Rust `TimeVecBuilder::build`: `limit.unwrap_or_default()`; the capacity
only pre-sizes the allocation, so the buffer starts empty either way. -/
def TimeVecBuilder.build {T : Type} (b : TimeVecBuilder T) : TimeVec T :=
  { limit := b.limit.getD Duration.zero, buffer := [] }

/-- The timestamp-monotonicity invariant: timestamps strictly increase
from front to back. -/
def TimeVec.TimeOrdered {T : Type} (tv : TimeVec T) : Prop :=
  tv.buffer.Pairwise (fun a b => a.1 < b.1)

instance {T : Type} [DecidableEq T] (tv : TimeVec T) :
    Decidable tv.TimeOrdered := by
  unfold TimeVec.TimeOrdered
  infer_instance

/-! ## Helper lemmas -/

theorem nat_sub_le_of_sub_le {a b c : Nat} (h : a - c ≤ b) : a - b ≤ c := by omega

theorem take_takeWhile_length {α : Type} (p : α → Bool) (l : List α) :
    l.take (l.takeWhile p).length = l.takeWhile p := by
  calc l.take (l.takeWhile p).length
      = (l.takeWhile p ++ l.dropWhile p).take (l.takeWhile p).length := by
        rw [List.takeWhile_append_dropWhile]
    _ = l.takeWhile p := List.take_left _ _

theorem drop_takeWhile_length {α : Type} (p : α → Bool) (l : List α) :
    l.drop (l.takeWhile p).length = l.dropWhile p := by
  calc l.drop (l.takeWhile p).length
      = (l.takeWhile p ++ l.dropWhile p).drop (l.takeWhile p).length := by
        rw [List.takeWhile_append_dropWhile]
    _ = l.dropWhile p := List.drop_left _ _

/-- On an accepted push, the result is the `takeWhile`/`dropWhile` split of
the buffer with the new item appended, at the eviction predicate. -/
theorem push_accepted_eq {T : Type} (tv : TimeVec T) (ts : Duration) (v : T)
    (hacc : tv.check_timestamp ts = true) :
    tv.push ts v =
      (some ((tv.buffer ++ [(ts, v)]).takeWhile
          (fun i => decide (i.1 < Duration.saturating_sub ts tv.limit))),
       ⟨tv.limit, (tv.buffer ++ [(ts, v)]).dropWhile
          (fun i => decide (i.1 < Duration.saturating_sub ts tv.limit))⟩) := by
  unfold TimeVec.push
  rw [if_pos hacc]
  dsimp only
  rw [take_takeWhile_length, drop_takeWhile_length]

theorem check_timestamp_empty {T : Type} (tv : TimeVec T) (h : tv.buffer = [])
    (ts : Duration) : tv.check_timestamp ts = true := by
  unfold TimeVec.check_timestamp
  rw [h]
  rfl

theorem check_timestamp_some {T : Type} (tv : TimeVec T) (b : Item T)
    (hb : tv.buffer.getLast? = some b) (ts : Duration) :
    tv.check_timestamp ts = decide (ts > b.1) := by
  unfold TimeVec.check_timestamp
  rw [hb]
  rfl

theorem dropWhile_concat_getLast {α : Type} (p : α → Bool) (l : List α) (a : α)
    (ha : p a = false) : (List.dropWhile p (l ++ [a])).getLast? = some a := by
  induction l with
  | nil => simp [List.dropWhile, ha]
  | cons x xs ih =>
    by_cases hx : p x
    · simpa [List.dropWhile, hx] using ih
    · simp only [List.dropWhile, hx]
      exact List.getLast?_concat (x :: xs)

/-- In a time-ordered list the eviction predicate partitions the list:
the longest prefix of items below the cutoff consists of all the items
below the cutoff, and everything `dropWhile` keeps is at or above it. -/
theorem takeWhile_filter_of_ordered {T : Type} (c : Duration) (l : List (Item T))
    (hs : l.Pairwise (fun a b : Item T => a.1 < b.1)) :
    l.takeWhile (fun i => decide (i.1 < c)) = l.filter (fun i => decide (i.1 < c)) ∧
    ∀ x ∈ l.dropWhile (fun i => decide (i.1 < c)), ¬ x.1 < c := by
  induction l with
  | nil => exact ⟨rfl, by intro x hx; simp at hx⟩
  | cons x xs ih =>
    rw [List.pairwise_cons] at hs
    obtain ⟨hx, hxs⟩ := hs
    obtain ⟨ih1, ih2⟩ := ih hxs
    by_cases h : x.1 < c
    · refine ⟨?_, ?_⟩
      · rw [List.takeWhile_cons_of_pos (by simpa using h),
          List.filter_cons_of_pos (by simpa using h), ih1]
      · intro y hy
        rw [List.dropWhile_cons_of_pos (by simpa using h)] at hy
        exact ih2 y hy
    · have htail : ∀ y ∈ xs, ¬ y.1 < c := fun y hy hc => h (lt_trans (hx y hy) hc)
      refine ⟨?_, ?_⟩
      · rw [List.takeWhile_cons_of_neg (by simpa using h),
          List.filter_cons_of_neg (by simpa using h),
          List.filter_eq_nil_iff.mpr (by intro y hy; simpa using htail y hy)]
      · intro y hy
        rw [List.dropWhile_cons_of_neg (by simpa using h)] at hy
        rcases List.mem_cons.mp hy with rfl | hy
        · exact h
        · exact htail y hy

/-- If the timestamp check passes on a time-ordered buffer, the appended
buffer is still time-ordered. -/
theorem appended_ordered {T : Type} (tv : TimeVec T) (ts : Duration) (v : T)
    (hs : tv.TimeOrdered) (hacc : tv.check_timestamp ts = true) :
    (tv.buffer ++ [(ts, v)]).Pairwise (fun a b : Item T => a.1 < b.1) := by
  have hall : ∀ a ∈ tv.buffer, a.1 < ts := by
    cases hlast : tv.buffer.getLast? with
    | none =>
      intro a ha
      rw [List.getLast?_eq_none_iff] at hlast
      rw [hlast] at ha
      simp at ha
    | some b =>
      have hb : b.1 < ts := by
        rw [check_timestamp_some tv b hlast ts] at hacc
        simpa using hacc
      obtain ⟨ys, hys⟩ := List.getLast?_eq_some_iff.mp hlast
      intro a ha
      rw [hys] at ha
      rcases List.mem_append.mp ha with hy | hy
      · have := hs
        rw [TimeVec.TimeOrdered, hys, List.pairwise_append] at this
        have halt : a.1 < b.1 := this.2.2 a hy b (by simp)
        exact lt_trans halt hb
      · rw [List.mem_singleton.mp hy]
        exact hb
  rw [List.pairwise_append]
  exact ⟨hs, List.pairwise_singleton _ _, fun a ha b hb => by
    rw [List.mem_singleton.mp hb]; exact hall a ha⟩

/-! ## Claim theorems -/

/-- C1: push with a timestamp not strictly greater than the back item's
timestamp is rejected (`None`) and changes nothing at all; push on an
empty buffer accepts any timestamp. -/
theorem push_rejects_non_monotonic {T : Type} (tv : TimeVec T) (ts : Duration) (v : T) :
    (∀ b, tv.buffer.getLast? = some b → ts ≤ b.1 → tv.push ts v = (none, tv)) ∧
    (tv.buffer = [] → ((tv.push ts v).1).isSome = true) := by
  constructor
  · intro b hb hle
    have hchk : tv.check_timestamp ts = false := by
      rw [check_timestamp_some tv b hb ts]
      simpa using Nat.not_lt.mpr hle
    unfold TimeVec.push
    rw [hchk]
    rfl
  · intro hempty
    rw [push_accepted_eq tv ts v (check_timestamp_empty tv hempty ts)]
    rfl

/-- C1 witness: a push at a timestamp equal to the back timestamp is a
rejected no-op. -/
theorem push_rejects_non_monotonic_witness :
    (⟨3, [(5, 0)]⟩ : TimeVec Nat).push 5 1 = (none, ⟨3, [(5, 0)]⟩) :=
  (push_rejects_non_monotonic ⟨3, [(5, 0)]⟩ 5 1).1 (5, 0) rfl (Nat.le_refl 5)

/-- C10: an accepted push always leaves the buffer non-empty with the new
item `(timestamp, value)` exactly at the back: the new item is never
evicted by its own insertion, even with a zero limit, because the cutoff
`timestamp.saturating_sub(limit)` never exceeds `timestamp` and eviction
is strict. -/
theorem push_back_is_new_item {T : Type} (tv : TimeVec T) (ts : Duration) (v : T)
    (hacc : tv.check_timestamp ts = true) :
    ((tv.push ts v).2).buffer.getLast? = some (ts, v) ∧
    ((tv.push ts v).2).buffer ≠ [] := by
  rw [push_accepted_eq tv ts v hacc]
  have hfail : (fun i : Item T => decide (i.1 < Duration.saturating_sub ts tv.limit)) (ts, v)
      = false := by
    simp only [Duration.saturating_sub, decide_eq_false_iff_not, Nat.not_lt]
    exact Nat.sub_le ts tv.limit
  have hlast := dropWhile_concat_getLast
    (fun i : Item T => decide (i.1 < Duration.saturating_sub ts tv.limit)) tv.buffer (ts, v) hfail
  refine ⟨hlast, ?_⟩
  intro hnil
  simp only at hnil
  rw [hnil] at hlast
  simp at hlast

/-- C10 witness: pushing onto an empty buffer with a zero limit keeps the
pushed item at the back. -/
theorem push_back_is_new_item_witness :
    (((⟨0, []⟩ : TimeVec Nat).push 5 7).2).buffer.getLast? = some (5, 7) ∧
    (((⟨0, []⟩ : TimeVec Nat).push 5 7).2).buffer ≠ [] :=
  push_back_is_new_item ⟨0, []⟩ 5 7 rfl

/-- C2: on an accepted push the yielded drain is `Some` and holds exactly
the items whose timestamp is strictly below the cutoff
`timestamp.saturating_sub(limit)`, oldest first (strictly increasing
timestamps), and none of them remains in the buffer afterwards; when the
filter is empty the drain is `Some []`. -/
theorem push_eviction_exact {T : Type} (tv : TimeVec T) (ts : Duration) (v : T)
    (hs : tv.TimeOrdered) (hacc : tv.check_timestamp ts = true) :
    ∃ evicted,
      (tv.push ts v).1 = some evicted ∧
      evicted = (tv.buffer ++ [(ts, v)]).filter
        (fun i => decide (i.1 < Duration.saturating_sub ts tv.limit)) ∧
      evicted.Pairwise (fun a b : Item T => a.1 < b.1) ∧
      ∀ x ∈ evicted, x ∉ ((tv.push ts v).2).buffer := by
  have happ := appended_ordered tv ts v hs hacc
  obtain ⟨hfilter, hdrop⟩ := takeWhile_filter_of_ordered
    (Duration.saturating_sub ts tv.limit) (tv.buffer ++ [(ts, v)]) happ
  refine ⟨(tv.buffer ++ [(ts, v)]).takeWhile
      (fun i => decide (i.1 < Duration.saturating_sub ts tv.limit)), ?_, hfilter, ?_, ?_⟩
  · rw [push_accepted_eq tv ts v hacc]
  · exact List.Pairwise.sublist (List.takeWhile_sublist _) happ
  · intro x hx hmem
    rw [push_accepted_eq tv ts v hacc] at hmem
    have hxlt : x.1 < Duration.saturating_sub ts tv.limit := by
      simpa using List.mem_takeWhile_imp hx
    exact hdrop x hmem hxlt

/-- C2 witness: with limit 2, pushing at 8 onto timestamps 1 and 5 evicts
exactly both old items. -/
theorem push_eviction_exact_witness :
    ((⟨2, [(1, 10), (5, 20)]⟩ : TimeVec Nat).push 8 30).1 = some [(1, 10), (5, 20)] := by
  obtain ⟨evicted, h1, h2, _, _⟩ :=
    push_eviction_exact ⟨2, [(1, 10), (5, 20)]⟩ 8 30 (by decide) rfl
  rw [h1, h2]
  rfl

/-- C3: after an accepted push, the pushed timestamp is the latest (it is
at the back) and every remaining item is within the window:
`latest.saturating_sub(item.timestamp) <= limit`, so no underflow occurs
even when the limit exceeds the latest timestamp. -/
theorem push_window_bound {T : Type} (tv : TimeVec T) (ts : Duration) (v : T)
    (hs : tv.TimeOrdered) (hacc : tv.check_timestamp ts = true) :
    ((tv.push ts v).2).buffer.getLast? = some (ts, v) ∧
    ∀ x ∈ ((tv.push ts v).2).buffer, Duration.saturating_sub ts x.1 ≤ tv.limit := by
  constructor
  · rw [push_accepted_eq tv ts v hacc]
    refine dropWhile_concat_getLast _ tv.buffer (ts, v) ?_
    simp only [Duration.saturating_sub, decide_eq_false_iff_not, Nat.not_lt]
    exact Nat.sub_le ts tv.limit
  · intro x hx
    rw [push_accepted_eq tv ts v hacc] at hx
    have hdrop := (takeWhile_filter_of_ordered (Duration.saturating_sub ts tv.limit)
      (tv.buffer ++ [(ts, v)]) (appended_ordered tv ts v hs hacc)).2
    have hge := hdrop x hx
    unfold Duration.saturating_sub
    exact nat_sub_le_of_sub_le (Nat.not_lt.mp hge)

/-- C3 witness: with limit 2, pushing at 6 onto timestamps 1 and 5 keeps
item at 5 within the window and puts the new item at the back. -/
theorem push_window_bound_witness :
    (((⟨2, [(1, 10), (5, 20)]⟩ : TimeVec Nat).push 6 30).2).buffer.getLast? = some (6, 30) ∧
    Duration.saturating_sub 6 (5 : Duration) ≤ 2 :=
  ⟨(push_window_bound ⟨2, [(1, 10), (5, 20)]⟩ 6 30 (by decide) rfl).1,
   (push_window_bound ⟨2, [(1, 10), (5, 20)]⟩ 6 30 (by decide) rfl).2 (5, 20) (by decide)⟩

/-- C4: time-ordering is preserved by every operation (`push`, rejected
or accepted, `pop_front`, `pop_back`, `clear`, `drain`), and `push` never
reorders: its resulting buffer is either untouched or a tail-end segment
of the old buffer with the new item appended. -/
theorem ops_preserve_time_order {T : Type} (tv : TimeVec T) (ts : Duration) (v : T)
    (hs : tv.TimeOrdered) :
    ((tv.push ts v).2).TimeOrdered ∧
    ((tv.pop_front).2).TimeOrdered ∧
    ((tv.pop_back).2).TimeOrdered ∧
    (tv.clear).TimeOrdered ∧
    ((tv.drain).2).TimeOrdered ∧
    (((tv.push ts v).2).buffer = tv.buffer ∨
      ∃ n, ((tv.push ts v).2).buffer = (tv.buffer ++ [(ts, v)]).drop n) := by
  refine ⟨?_, List.Pairwise.sublist (List.tail_sublist _) hs,
    List.Pairwise.sublist (List.dropLast_sublist _) hs,
    List.Pairwise.nil, List.Pairwise.nil, ?_⟩
  · by_cases hacc : tv.check_timestamp ts = true
    · rw [push_accepted_eq tv ts v hacc]
      exact List.Pairwise.sublist (List.dropWhile_sublist _) (appended_ordered tv ts v hs hacc)
    · unfold TimeVec.push
      rw [if_neg hacc]
      exact hs
  · by_cases hacc : tv.check_timestamp ts = true
    · right
      rw [push_accepted_eq tv ts v hacc]
      exact ⟨((tv.buffer ++ [(ts, v)]).takeWhile
          (fun i => decide (i.1 < Duration.saturating_sub ts tv.limit))).length,
        (drop_takeWhile_length _ _).symm⟩
    · left
      unfold TimeVec.push
      rw [if_neg hacc]

/-- C4 witness: an accepted push on an ordered two-item buffer leaves the
buffer time-ordered. -/
theorem ops_preserve_time_order_witness :
    (((⟨2, [(1, 10), (5, 20)]⟩ : TimeVec Nat).push 6 30).2).TimeOrdered :=
  (ops_preserve_time_order ⟨2, [(1, 10), (5, 20)]⟩ 6 30 (by decide)).1

theorem head_le_getLast_of_pairwise {T : Type} (l : List (Item T)) (f lst : Item T)
    (hs : l.Pairwise (fun a b : Item T => a.1 < b.1))
    (hf : l.head? = some f) (hl : l.getLast? = some lst) : f.1 ≤ lst.1 := by
  obtain ⟨ys, rfl⟩ := List.getLast?_eq_some_iff.mp hl
  cases ys with
  | nil =>
    have : lst = f := by simpa using hf
    rw [this]
  | cons y ys2 =>
    have hfy : f = y := by simpa using hf.symm
    rw [List.pairwise_append] at hs
    have : y.1 < lst.1 := hs.2.2 y (List.mem_cons_self y ys2) lst (List.mem_singleton_self lst)
    rw [hfy]
    exact Nat.le_of_lt this

/-- C5: `checked_duration` is `Some(back - front)` exactly on non-empty
buffers and `None` on empty ones, and the internal `unwrap` of `back()`
and the unchecked subtraction are both safe: when `front()` is present so
is `back()`, and time-ordering puts the front timestamp at or below the
back one, so the subtraction does not underflow. -/
theorem checked_duration_safe {T : Type} (tv : TimeVec T) (hs : tv.TimeOrdered) :
    (tv.buffer = [] → tv.checked_duration = none) ∧
    (tv.buffer ≠ [] → ∃ f lst, tv.buffer.head? = some f ∧ tv.buffer.getLast? = some lst ∧
      f.1 ≤ lst.1 ∧ tv.checked_duration = some (lst.1 - f.1) ∧
      lst.1 - f.1 + f.1 = lst.1) := by
  constructor
  · intro h
    unfold TimeVec.checked_duration
    rw [h]
    rfl
  · intro h
    obtain ⟨lst, hl⟩ : ∃ lst, tv.buffer.getLast? = some lst := by
      cases hq : tv.buffer.getLast? with
      | none => exact absurd (List.getLast?_eq_none_iff.mp hq) h
      | some lst => exact ⟨lst, rfl⟩
    obtain ⟨f, hf⟩ : ∃ f, tv.buffer.head? = some f := by
      cases hbuf : tv.buffer with
      | nil => exact absurd hbuf h
      | cons f rest => exact ⟨f, rfl⟩
    have hle : f.1 ≤ lst.1 := head_le_getLast_of_pairwise tv.buffer f lst hs hf hl
    refine ⟨f, lst, hf, hl, hle, ?_, Nat.sub_add_cancel hle⟩
    unfold TimeVec.checked_duration
    rw [hf, hl]

/-- C5 witness: on a two-item ordered buffer the duration is back minus
front. -/
theorem checked_duration_safe_witness :
    (⟨0, [(2, 5), (9, 6)]⟩ : TimeVec Nat).checked_duration = some 7 := by
  obtain ⟨f, lst, hf, hl, hle, hcd, hsub⟩ :=
    (checked_duration_safe (⟨0, [(2, 5), (9, 6)]⟩ : TimeVec Nat) (by decide)).2 (by decide)
  have hf2 : f = (2, 5) := by simpa using hf.symm
  have hl2 : lst = (9, 6) := by simpa using hl.symm
  rw [hf2, hl2] at hcd
  exact hcd

/-- C6 counterexample: stopping the drain cursor on a two-item buffer
after consuming only the first item does not leave the unconsumed item
`(2, 20)` in the buffer — the buffer is empty, contradicting the claim
that partial consumption leaves the remainder un-drained. -/
theorem drain_partial_not_retained :
    ((⟨0, [(1, 10), (2, 20)]⟩ : TimeVec Nat).drain_stop 1).1 = [(1, 10)] ∧
    (2, 20) ∉ (((⟨0, [(1, 10), (2, 20)]⟩ : TimeVec Nat).drain_stop 1).2).buffer ∧
    (((⟨0, [(1, 10), (2, 20)]⟩ : TimeVec Nat).drain_stop 1).2).buffer = [] := by
  decide

/-- C6 (amended): `drain()` yields every held item oldest first and
leaves the buffer empty, so a second `drain()` yields nothing; stopping
the cursor after only `k` items has yielded the `k` oldest items but
still leaves the buffer empty, because dropping the cursor drops the
unconsumed remainder instead of returning it to the buffer. -/
theorem drain_removes_all {T : Type} (tv : TimeVec T) :
    (tv.drain.1 = tv.buffer ∧ ((tv.drain.2).buffer = []) ∧ (((tv.drain.2).drain).1 = [])) ∧
    (∀ k, (tv.drain_stop k).1 = tv.buffer.take k ∧ ((tv.drain_stop k).2).buffer = []) ∧
    (∀ k, tv.buffer.length ≤ k → (tv.drain_stop k).1 = tv.buffer) := by
  refine ⟨⟨rfl, rfl, rfl⟩, fun k => ⟨rfl, rfl⟩, ?_⟩
  intro k hk
  exact List.take_of_length_le hk

/-- C6 witness: running the cursor to completion on a two-item buffer
yields both items. -/
theorem drain_removes_all_witness :
    ((⟨0, [(1, 10), (2, 20)]⟩ : TimeVec Nat).drain_stop 2).1 = [(1, 10), (2, 20)] :=
  (drain_removes_all ⟨0, [(1, 10), (2, 20)]⟩).2.2 2 (by decide)

/-- C7: every edge query on an empty buffer returns its designated
empty-state value: `checked_duration` is `None`, `duration` is zero,
`pop_front` and `pop_back` are `None` (and change nothing), the length is
0 and `is_empty` holds. -/
theorem empty_state_semantics {T : Type} (tv : TimeVec T) (h : tv.buffer = []) :
    tv.checked_duration = none ∧ tv.duration = Duration.zero ∧
    tv.pop_front = (none, tv) ∧ tv.pop_back = (none, tv) ∧
    tv.len = 0 ∧ tv.is_empty = true := by
  obtain ⟨lim, buf⟩ := tv
  have h2 : buf = [] := h
  subst h2
  exact ⟨rfl, rfl, rfl, rfl, rfl, rfl⟩

/-- C7 witness: the empty-state values on a concrete empty buffer. -/
theorem empty_state_semantics_witness :
    (⟨7, []⟩ : TimeVec Nat).checked_duration = none ∧
    (⟨7, []⟩ : TimeVec Nat).duration = Duration.zero ∧
    (⟨7, []⟩ : TimeVec Nat).pop_front = (none, ⟨7, []⟩) ∧
    (⟨7, []⟩ : TimeVec Nat).pop_back = (none, ⟨7, []⟩) ∧
    (⟨7, []⟩ : TimeVec Nat).len = 0 ∧
    (⟨7, []⟩ : TimeVec Nat).is_empty = true :=
  empty_state_semantics ⟨7, []⟩ rfl

/-- C8: `duration_from_back(reference)` is `Some(reference - back)` when
the buffer is non-empty and the reference is at or after the back
timestamp, and `None` when the buffer is empty or the checked subtraction
would underflow. -/
theorem duration_from_back_spec {T : Type} (tv : TimeVec T) (ref : Duration) :
    (tv.buffer = [] → tv.duration_from_back ref = none) ∧
    (∀ b, tv.buffer.getLast? = some b →
      (b.1 ≤ ref → tv.duration_from_back ref = some (ref - b.1)) ∧
      (ref < b.1 → tv.duration_from_back ref = none)) := by
  constructor
  · intro h
    unfold TimeVec.duration_from_back
    rw [h]
    rfl
  · intro b hb
    constructor
    · intro hle
      unfold TimeVec.duration_from_back Duration.checked_sub
      rw [hb]
      simp [hle]
    · intro hlt
      unfold TimeVec.duration_from_back Duration.checked_sub
      rw [hb]
      simp [Nat.not_le.mpr hlt]

/-- C8 witness: a reference 10 against a back timestamp 3 gives 7. -/
theorem duration_from_back_spec_witness :
    (⟨0, [(3, 1)]⟩ : TimeVec Nat).duration_from_back 10 = some 7 :=
  ((duration_from_back_spec (⟨0, [(3, 1)]⟩ : TimeVec Nat) 10).2 (3, 1) rfl).1 (by decide)

/-- C9: `build()` uses the configured limit when present and the zero
duration otherwise, with no validation (a zero limit is accepted); and
every unit setter stores exactly `with_limit` of the converted duration. -/
theorem builder_limit_semantics {T : Type} (b : TimeVecBuilder T) (d : Duration) (n : Nat) :
    (b.build).limit = b.limit.getD Duration.zero ∧
    (b.limit = none → (b.build).limit = Duration.zero) ∧
    (∀ d0, b.limit = some d0 → (b.build).limit = d0) ∧
    ((b.with_limit d).build).limit = d ∧
    b.with_limit_secs n = b.with_limit (Duration.from_secs n) ∧
    b.with_limit_millis n = b.with_limit (Duration.from_millis n) ∧
    b.with_limit_micros n = b.with_limit (Duration.from_micros n) ∧
    b.with_limit_nanos n = b.with_limit (Duration.from_nanos n) ∧
    ((b.with_limit Duration.zero).build).limit = Duration.zero := by
  refine ⟨rfl, ?_, ?_, rfl, rfl, rfl, rfl, rfl, rfl⟩
  · intro h
    unfold TimeVecBuilder.build
    rw [h]
    rfl
  · intro d0 h
    unfold TimeVecBuilder.build
    rw [h]
    rfl

/-- C9 witness: a builder with no limit builds a zero limit. -/
theorem builder_limit_semantics_witness :
    ((TimeVecBuilder.default Nat).build).limit = Duration.zero :=
  (builder_limit_semantics (TimeVecBuilder.default Nat) 0 0).2.1 rfl

end Timevec
